import Mathlib

/-!
Shallow embedding of the product similarity-search engine
(`src/utils/search_engine.py`, class `ProductSearchEngine`) together with
proofs of the specification's testable properties.

Modelling conventions:
* a pandas `DataFrame` of embeddings is a `List EmbRow`, a catalog frame is a
  `List ProdRow`; row order is list order;
* nullable cells (`NaN`) are `Option` values; numeric cells are `ℚ`
  (exact arithmetic stands in for the float arithmetic of the source, which
  only compares, sorts, and takes inner products);
* the engine's mutable field `clusters_indexes` is threaded explicitly as a
  `Cache` value: every method of the class takes the cache and returns the
  (possibly extended) cache;
* Python exceptions (`IndexError` from `.iloc`, ragged `np.array`, faiss
  dimension asserts, pandas `ValueError` on mismatched sort lists) are
  `Except.error`.
-/

namespace ProductSearch

/-- A row of the embeddings table (`stores_products_embeddings`):
product id, cluster id, data source and the embedding serialized as text. -/
structure EmbRow where
  product_id : String
  cluster_id : Int
  data_source : String
  normalized_embeddings : String
deriving DecidableEq, Repr

/-- A row of the catalog table (`stores_products_final`), restricted to the
columns the engine reads; nullable columns are `Option`. -/
structure ProdRow where
  product_id : String
  product_name : Option String
  product_desc : Option String
  sale_price : Option ℚ
  data_source : String
  url : Option String
  image : Option String
deriving DecidableEq, Repr

/-- A dense vector, the result of decoding a serialized embedding. -/
abbrev Vec := List ℚ

/-- `re.sub(r'[\[\]\n]', '', s)`: strip brackets and newlines. -/
def cleanEmbedding (s : String) : String :=
  String.mk (s.toList.filter (fun c => c ≠ '[' && c ≠ ']' && c ≠ '\n'))

/-- Value of a list of decimal digits. -/
def digitsVal : List Char → Option Nat
  | [] => some 0
  | c :: cs =>
    if c.isDigit then
      (digitsVal cs).map (fun v => (c.toNat - '0'.toNat) * 10 ^ cs.length + v)
    else none

/-- Decode one whitespace-separated token as a decimal number
(optional sign, integer part, optional fractional part), the grammar
`np.fromstring` accepts for the embeddings stored by this system.
Returns `none` on a malformed token. -/
def parseToken (t : String) : Option ℚ :=
  let core : List Char → Option ℚ := fun cs =>
    match cs.splitOn '.' with
    | [intPart] =>
      if intPart = [] then none
      else (digitsVal intPart).map (fun n => (n : ℚ))
    | [intPart, fracPart] =>
      if intPart = [] && fracPart = [] then none
      else
        match digitsVal intPart, digitsVal fracPart with
        | some n, some f => some ((n : ℚ) + (f : ℚ) / 10 ^ fracPart.length)
        | _, _ => none
    | _ => none
  match t.toList with
  | [] => none
  | '-' :: rest => (core rest).map (fun q => -q)
  | cs => core cs

/-- `np.fromstring(s, sep=' ')` on a cleaned embedding string: split on
blanks and decode tokens greedily, stopping at the first malformed token
(the partial prefix is returned, matching numpy's lenient text mode). -/
def parseTokens : List String → List ℚ
  | [] => []
  | t :: ts =>
    match parseToken t with
    | some q => q :: parseTokens ts
    | none => []

/-- Decode a serialized embedding cell into a vector:
`np.fromstring(re.sub(r'[\[\]\n]', '', embedding), sep=' ')`. -/
def parseVec (s : String) : Vec :=
  parseTokens (((cleanEmbedding s).split (fun c => c = ' ')).filter (fun t => t ≠ ""))

/-- Model of `faiss.IndexFlatIP(d)` after `add`: the dimensionality passed to
the constructor and the vectors added, in insertion order.  Exact
inner-product search is defined over these. -/
structure FaissIndex where
  d : Nat
  vecs : List Vec
deriving DecidableEq, Repr

/-- One element of the engine's `clusters_indexes` list. -/
structure CacheEntry where
  source : String
  cluster_id : Int
  index : FaissIndex
deriving DecidableEq, Repr

/-- The engine's `clusters_indexes` field, threaded explicitly. -/
abbrev Cache := List CacheEntry

/-- One element of the `index_group` list built by
`get_cluster_group_by_source`. -/
structure IndexGroup where
  index : FaissIndex
  source : String
  data : List EmbRow
deriving DecidableEq, Repr

/-- `get_cached_index`: linear scan of `clusters_indexes`, first entry whose
cluster id and source both match. -/
def get_cached_index (cache : Cache) (cluster_id : Int) (source_cluster : String) :
    Option FaissIndex :=
  ((cache.find? (fun c => c.cluster_id = cluster_id && c.source = source_cluster)).map
    (fun c => c.index))

/-- `get_product_cluster`: rows matching the product id; if none, the
`(None, None, None)` return, else the cluster id of the first match and all
rows of that cluster.  The matched product is the first matching row (the
source keeps the whole selection but only ever reads `.values[0]`). -/
def get_product_cluster (df : List EmbRow) (product_id : String) :
    Option (List EmbRow × EmbRow × Int) :=
  match df.filter (fun r => r.product_id = product_id) with
  | [] => none
  | p :: _ => some (df.filter (fun r => r.cluster_id = p.cluster_id), p, p.cluster_id)

/-- The distinct data sources of a frame in ascending order: pandas
`groupby('data_source')` sorts its group keys. -/
def sortedSources (df : List EmbRow) : List String :=
  List.insertionSort (fun a b => a ≤ b) (df.map (fun r => r.data_source)).dedup

/-- `get_clusters_group_by_source`: the pandas `GroupBy` object, modelled as
the association of each (sorted) group key with `get_group` of that key. -/
def get_clusters_group_by_source (df : List EmbRow) : List (String × List EmbRow) :=
  (sortedSources df).map (fun s => (s, df.filter (fun r => r.data_source = s)))

/-- `np.array([np.fromstring ... for ...])` over one partition followed by
reading `shape[1]`: succeeds only on a non-empty homogeneous matrix (a
ragged list raises, as does `shape[1]` on an empty or 1-d result). -/
def buildEmbMatrix (rows : List EmbRow) : Except String (List Vec) :=
  match rows.map (fun r => parseVec r.normalized_embeddings) with
  | [] => .error "tuple index out of range"
  | v :: vs =>
    if vs.all (fun w => w.length = v.length) then .ok (v :: vs)
    else .error "setting an array element with a sequence"

/-- The per-source loop body of `get_cluster_group_by_source`: decode the
partition's embedding matrix (this happens before the cache lookup), then
reuse a cached index or build, publish and cache a fresh one. -/
def buildGroups (cache : Cache) (cluster_id : Int) :
    List (String × List EmbRow) → Except String (Cache × List IndexGroup)
  | [] => .ok (cache, [])
  | (s, data) :: rest =>
    match buildEmbMatrix data with
    | .error e => .error e
    | .ok vecs =>
      match get_cached_index cache cluster_id s with
      | some index =>
        match buildGroups cache cluster_id rest with
        | .error e => .error e
        | .ok (c', gs) => .ok (c', { index := index, source := s, data := data } :: gs)
      | none =>
        let index : FaissIndex := { d := (vecs.headI).length, vecs := vecs }
        let cache' := cache ++ [{ source := s, cluster_id := cluster_id, index := index }]
        match buildGroups cache' cluster_id rest with
        | .error e => .error e
        | .ok (c', gs) => .ok (c', { index := index, source := s, data := data } :: gs)

/-- `get_cluster_group_by_source`: resolve the product's cluster, partition
it by source and obtain one (possibly cached) index per partition.
`Option` is the `(None, None)` return for an unknown product id. -/
def get_cluster_group_by_source (cache : Cache) (df : List EmbRow) (product_id : String) :
    Except String (Cache × Option (List IndexGroup × EmbRow)) :=
  match get_product_cluster df product_id with
  | none => .ok (cache, none)
  | some (product_cluster, product, cluster_id) =>
    match buildGroups cache cluster_id (get_clusters_group_by_source product_cluster) with
    | .error e => .error e
    | .ok (c', gs) => .ok (c', some (gs, product))

/-- A row of the frame returned by `get_similar_products`: an embeddings row
with the attached `score` column. -/
structure ScoredRow where
  row : EmbRow
  score : ℚ
deriving DecidableEq, Repr

/-- Inner product of two vectors (trailing entries of the longer one are
ignored; the engine only ever compares equal-length vectors because faiss
checks dimensions first). -/
def dot (a b : Vec) : ℚ :=
  ((a.zip b).map (fun p => p.1 * p.2)).sum

/-- The distance faiss reports for padding slots when fewer than `k`
neighbors exist under the inner-product metric: the most negative
single-precision float, `-3.4028235e38`. -/
def padScore : ℚ := -(34028235 * 10 ^ 31)

/-- `index.search(query, k)` on a flat inner-product index: every stored
vector scored against the query, ranked by descending score (ties keep
insertion order), truncated to `k`, and padded to exactly `k` slots with
label `-1` and the worst distance when the index holds fewer vectors. -/
def fiSearch (index : FaissIndex) (query : Vec) (k : Nat) : List (ℚ × Int) :=
  let scored := (index.vecs.enum).map (fun p => (dot query p.2, (p.1 : Int)))
  let ranked := List.insertionSort (fun a b => b.1 ≤ a.1) scored
  let top := ranked.take k
  top ++ List.replicate (k - top.length) (padScore, -1)

/-- Positional lookup `.iloc[i]` of pandas: negative positions count from
the end, out-of-range positions raise (`none`). -/
def iloc {α : Type} (rows : List α) (i : Int) : Option α :=
  if 0 ≤ i ∧ i < rows.length then rows.get? i.toNat
  else if i < 0 ∧ 0 ≤ i + rows.length then rows.get? (i + rows.length).toNat
  else none

/-- `df_cluster_data.iloc[I[0]]` with the score column attached
(`similar_products['score'] = D[0]`, then `astype(float)`, the identity
here): one row per returned slot; any out-of-range label raises. -/
def ilocRows (data : List EmbRow) : List (ℚ × Int) → Option (List ScoredRow)
  | [] => some []
  | p :: ps =>
    match iloc data p.2, ilocRows data ps with
    | some r, some rs => some ({ row := r, score := p.1 } :: rs)
    | _, _ => none

/-- The score-threshold filter of step `score >= min_score`
(`similar_products[similar_products['score'] >= min_score]`). -/
def thresholdFilter (min_score : ℚ) (rows : List ScoredRow) : List ScoredRow :=
  rows.filter (fun r => min_score ≤ r.score)

/-- The per-partition body of the search loop in `get_similar_products`:
run the (dimension-checked) index search with `k = num + 1`, materialize the
rows, drop the query product, drop rows under the threshold, sort by score
descending and keep the first `num` rows. -/
def processPartition (product_id : String) (num : Nat) (min_score : ℚ) (query : Vec)
    (g : IndexGroup) : Except String (List ScoredRow) :=
  if query.length = g.index.d then
    match ilocRows g.data (fiSearch g.index query (num + 1)) with
    | none => .error "positional indexers are out-of-bounds"
    | some rows =>
      let rows := rows.filter (fun r => r.row.product_id ≠ product_id)
      let rows := thresholdFilter min_score rows
      let rows := List.insertionSort (fun a b => b.score ≤ a.score) rows
      .ok (rows.take num)
  else .error "query dimension mismatch"

/-- The search loop of `get_similar_products` over all partitions,
accumulating `products_found` (one entry per partition). -/
def processGroups (product_id : String) (num : Nat) (min_score : ℚ) (query : Vec) :
    List IndexGroup → Except String (List (List ScoredRow))
  | [] => .ok []
  | g :: gs =>
    match processPartition product_id num min_score query g with
    | .error e => .error e
    | .ok rs =>
      match processGroups product_id num min_score query gs with
      | .error e => .error e
      | .ok rest => .ok (rs :: rest)

/-- `get_similar_products`: resolve partitions and indexes, decode the query
product's own vector, search every partition and concatenate the per-source
results; `none` (the Python `None`) when the product id is absent from the
embeddings frame, the explicit empty frame when `products_found` is empty. -/
def get_similar_products (cache : Cache) (df : List EmbRow) (product_id : String)
    (num_similar_products : Nat := 10) (min_score : ℚ := 1 / 2) :
    Except String (Cache × Option (List ScoredRow)) :=
  match get_cluster_group_by_source cache df product_id with
  | .error e => .error e
  | .ok (c', none) => .ok (c', none)
  | .ok (c', some (cluster_groups, _product)) =>
    match (df.filter (fun r => r.product_id = product_id)).head? with
    | none => .error "index 0 is out of bounds"
    | some qrow =>
      let query := parseVec qrow.normalized_embeddings
      match processGroups product_id num_similar_products min_score query cluster_groups with
      | .error e => .error e
      | .ok products_found =>
        if products_found.isEmpty then .ok (c', some [])
        else .ok (c', some products_found.flatten)

/-- A row of the frame returned by `get_similar_products_with_details`
after the merge, `_y`-column drop and projection to `final_columns`:
details joined from the catalog (nullable when the left join found no
catalog row), source and cluster id from the embeddings side, the score. -/
structure DetailRow where
  product_id : String
  product_name : Option String
  product_desc : Option String
  sale_price : Option ℚ
  data_source : String
  cluster_id : Int
  score : ℚ
  url : Option String
  image : Option String
deriving DecidableEq, Repr

/-- Build the joined, projected row for one candidate and one (optional)
matching catalog row.  `data_source` keeps the embeddings-side column (the
catalog copy gets suffix `_y` and is dropped). -/
def mkDetail (sr : ScoredRow) (p : Option ProdRow) : DetailRow :=
  { product_id := sr.row.product_id
    product_name := match p with | none => none | some pr => pr.product_name
    product_desc := match p with | none => none | some pr => pr.product_desc
    sale_price := match p with | none => none | some pr => pr.sale_price
    data_source := sr.row.data_source
    cluster_id := sr.row.cluster_id
    score := sr.score
    url := match p with | none => none | some pr => pr.url
    image := match p with | none => none | some pr => pr.image }

/-- The rows the left join produces for one candidate: one per matching
catalog row, or a single null-detail row when no catalog row matches. -/
def joinBlock (df_products : List ProdRow) (sr : ScoredRow) : List DetailRow :=
  match df_products.filter (fun p => p.product_id = sr.row.product_id) with
  | [] => [mkDetail sr none]
  | ms => ms.map (fun p => mkDetail sr (some p))

/-- `pd.merge(products_found, df_products[...], on='product_id', how='left')`:
left row order is preserved; each candidate is repeated once per matching
catalog row, or kept once with null details when no catalog row matches. -/
def mergeDetails (found : List ScoredRow) (df_products : List ProdRow) : List DetailRow :=
  found.flatMap (joinBlock df_products)

/-- A sort key accepted by the `sort` argument (default
`['score', 'sale_price']`). -/
inductive SortKey where
  | score
  | sale_price
deriving DecidableEq, Repr

/-- The cell a sort key reads from a row (`score` is never null). -/
def keyVal : SortKey → DetailRow → Option ℚ
  | .score, r => some r.score
  | .sale_price, r => r.sale_price

/-- Encode one sort cell for comparison under a direction: nulls sort last
in either direction (`na_position='last'`), descending negates the value. -/
def encKey (asc : Bool) : Option ℚ → Lex (Bool × ℚ)
  | none => toLex (true, 0)
  | some x => toLex (false, if asc then x else -x)

/-- Lexicographic multi-key comparison of two rows under a list of
(key, ascending) pairs, as `sort_values(by=sort, ascending=ascending)`
orders rows. -/
def lexCmp : List (SortKey × Bool) → DetailRow → DetailRow → Ordering
  | [], _, _ => .eq
  | (k, asc) :: rest, a, b =>
    match compare (encKey asc (keyVal k a)) (encKey asc (keyVal k b)) with
    | .eq => lexCmp rest a b
    | o => o

/-- The row order realized by `sort_values`: `a` may precede `b`. -/
def sortLe (pairs : List (SortKey × Bool)) (a b : DetailRow) : Prop :=
  lexCmp pairs a b ≠ .gt

instance (pairs : List (SortKey × Bool)) : DecidableRel (sortLe pairs) :=
  fun a b => by unfold sortLe; infer_instance

/-- The name-validity predicate of the final data-quality gate:
`notna & (name != '') & (name.str.strip() != '')`. -/
def validName : Option String → Bool
  | none => false
  | some s => decide (s ≠ "") && decide (s.trim ≠ "")

/-- The price-validity predicate of the final data-quality gate:
`notna & (sale_price > 0)`. -/
def validPrice : Option ℚ → Bool
  | none => false
  | some p => decide (0 < p)

/-- The strict price comparison of the best-price filter
(`sale_price < product_price`); any null compares false, as `NaN` does. -/
def priceLt : Option ℚ → Option ℚ → Bool
  | some a, some b => decide (a < b)
  | _, _ => false

/-- `sort_values(by=sort, ascending=ascending)` followed by the two validity
filters; pandas raises when the two option lists have different lengths. -/
def sortAndValidate (sort : List SortKey) (ascending : List Bool)
    (rows : List DetailRow) : Except String (List DetailRow) :=
  if sort.length = ascending.length then
    let sorted := List.insertionSort (sortLe (sort.zip ascending)) rows
    let named := sorted.filter (fun r => validName r.product_name)
    .ok (named.filter (fun r => validPrice r.sale_price))
  else .error "Length of ascending must be the length of by"

/-- The tail of `get_similar_products_with_details` after the similarity
search succeeded with a non-empty candidate frame: join details, optionally
keep only strictly cheaper rows (returning the explicit empty frame early
when that filter clears everything), sort, validate. -/
def detailsPipeline (found : List ScoredRow) (df_products : List ProdRow)
    (search_product : ProdRow) (only_best_price : Bool)
    (sort : List SortKey) (ascending : List Bool) : Except String (List DetailRow) :=
  let details := mergeDetails found df_products
  if only_best_price then
    let filtered := details.filter (fun r => priceLt r.sale_price search_product.sale_price)
    if filtered.isEmpty then .ok []
    else sortAndValidate sort ascending filtered
  else sortAndValidate sort ascending details

/-- `get_similar_products_with_details`: `none` is the `None` returned when
the product id is missing from the catalog; an absent-from-embeddings or
empty similarity result becomes the explicit empty frame; otherwise the
candidates run through `detailsPipeline`. -/
def get_similar_products_with_details (cache : Cache) (df_embeddings : List EmbRow)
    (df_products : List ProdRow) (product_id : String)
    (num_similar_products : Nat := 10) (min_score : ℚ := 1 / 2)
    (only_best_price : Bool := false)
    (sort : List SortKey := [.score, .sale_price])
    (ascending : List Bool := [false, true]) :
    Except String (Cache × Option (List DetailRow)) :=
  match df_products.filter (fun p => p.product_id = product_id) with
  | [] => .ok (cache, none)
  | search_product :: _ =>
    match get_similar_products cache df_embeddings product_id
        num_similar_products min_score with
    | .error e => .error e
    | .ok (c', none) => .ok (c', some [])
    | .ok (c', some found) =>
      if found.isEmpty then .ok (c', some [])
      else
        match detailsPipeline found df_products search_product only_best_price
            sort ascending with
        | .error e => .error e
        | .ok rows => .ok (c', some rows)

/-! ### Helper lemmas about the search pipeline -/

/-- A row materialized by `.iloc` comes from the partition frame. -/
theorem iloc_mem {α : Type} {rows : List α} {i : Int} {x : α}
    (h : iloc rows i = some x) : x ∈ rows := by
  unfold iloc at h
  split at h
  · exact List.get?_mem h
  · split at h
    · exact List.get?_mem h
    · exact absurd h (by simp)

/-- Every row produced by `ilocRows` comes from the partition frame and
carries the score of its slot. -/
theorem ilocRows_mem {data : List EmbRow} :
    ∀ {ps : List (ℚ × Int)} {rs : List ScoredRow}, ilocRows data ps = some rs →
      ∀ r ∈ rs, r.row ∈ data
  | [], _, h => by
    unfold ilocRows at h
    cases h
    intro r hr
    exact absurd hr (by simp)
  | p :: ps, rs, h => by
    unfold ilocRows at h
    cases hl : iloc data p.2 with
    | none => rw [hl] at h; exact absurd h (by simp)
    | some x =>
      rw [hl] at h
      cases ht : ilocRows data ps with
      | none => rw [ht] at h; exact absurd h (by simp)
      | some tl =>
        rw [ht] at h
        cases h
        intro r hr
        rcases List.mem_cons.mp hr with h1 | h2
        · subst h1; exact iloc_mem hl
        · exact ilocRows_mem ht r h2

/-- Rows surviving a successful partition search come from the partition's
frame, are not the query product, and meet the score threshold. -/
theorem processPartition_mem {product_id : String} {num : Nat} {min_score : ℚ}
    {query : Vec} {g : IndexGroup} {rs : List ScoredRow}
    (h : processPartition product_id num min_score query g = .ok rs) :
    ∀ r ∈ rs, r.row ∈ g.data ∧ r.row.product_id ≠ product_id ∧ min_score ≤ r.score := by
  unfold processPartition at h
  split at h
  · cases hi : ilocRows g.data (fiSearch g.index query (num + 1)) with
    | none => rw [hi] at h; exact absurd h (by simp)
    | some rows =>
      rw [hi] at h
      cases h
      intro r hr
      have h1 : r ∈ List.insertionSort (fun a b => b.score ≤ a.score)
          (thresholdFilter min_score
            (rows.filter (fun r => r.row.product_id ≠ product_id))) :=
        List.take_subset _ _ hr
      have h2 := (List.perm_insertionSort (fun a b => b.score ≤ a.score)
        (thresholdFilter min_score
          (rows.filter (fun r => r.row.product_id ≠ product_id)))).mem_iff.mp h1
      unfold thresholdFilter at h2
      have h3 := List.mem_filter.mp h2
      have h4 := List.mem_filter.mp h3.1
      refine ⟨ilocRows_mem hi r h4.1, by simpa using h4.2, by simpa using h3.2⟩
  · exact absurd h (by simp)

/-- `processGroups` membership: every concatenated result row satisfies the
per-partition guarantees for its group. -/
theorem processGroups_mem {product_id : String} {num : Nat} {min_score : ℚ}
    {query : Vec} :
    ∀ {gs : List IndexGroup} {parts : List (List ScoredRow)},
      processGroups product_id num min_score query gs = .ok parts →
      ∀ r ∈ parts.flatten, ∃ g ∈ gs,
        r.row ∈ g.data ∧ r.row.product_id ≠ product_id ∧ min_score ≤ r.score
  | [], parts, h => by
    unfold processGroups at h
    cases h
    intro r hr
    exact absurd hr (by simp)
  | g :: gs, parts, h => by
    unfold processGroups at h
    cases hp : processPartition product_id num min_score query g with
    | error e => rw [hp] at h; exact absurd h (by simp)
    | ok rs =>
      rw [hp] at h
      cases ht : processGroups product_id num min_score query gs with
      | error e => rw [ht] at h; exact absurd h (by simp)
      | ok rest =>
        rw [ht] at h
        cases h
        intro r hr
        rw [List.flatten_cons, List.mem_append] at hr
        rcases hr with h1 | h2
        · exact ⟨g, List.mem_cons_self .., processPartition_mem hp r h1⟩
        · obtain ⟨g', hg', hprops⟩ := processGroups_mem ht r h2
          exact ⟨g', List.mem_cons_of_mem _ hg', hprops⟩

/-- Rows of a successful `get_similar_products` result are never the query
product and always meet the threshold. -/
theorem get_similar_products_mem {cache : Cache} {df : List EmbRow}
    {product_id : String} {num : Nat} {min_score : ℚ} {c' : Cache}
    {rs : List ScoredRow}
    (h : get_similar_products cache df product_id num min_score = .ok (c', some rs)) :
    ∀ r ∈ rs, r.row.product_id ≠ product_id ∧ min_score ≤ r.score := by
  unfold get_similar_products at h
  cases hgc : get_cluster_group_by_source cache df product_id with
  | error e => rw [hgc] at h; exact absurd h (by simp)
  | ok pair =>
    rw [hgc] at h
    obtain ⟨c1, o⟩ := pair
    cases o with
    | none => simp at h
    | some pr =>
      obtain ⟨groups, product⟩ := pr
      cases hq : (df.filter (fun r => r.product_id = product_id)).head? with
      | none => simp [hq] at h
      | some qrow =>
        simp only [hq] at h
        cases hpg : processGroups product_id num min_score
            (parseVec qrow.normalized_embeddings) groups with
        | error e => rw [hpg] at h; exact absurd h (by simp)
        | ok parts =>
          rw [hpg] at h
          dsimp only at h
          by_cases he : parts.isEmpty
          · rw [if_pos he] at h
            simp only [Except.ok.injEq, Prod.mk.injEq, Option.some.injEq] at h
            intro r hr
            rw [← h.2] at hr
            exact absurd hr (by simp)
          · rw [if_neg he] at h
            simp only [Except.ok.injEq, Prod.mk.injEq, Option.some.injEq] at h
            intro r hr
            rw [← h.2] at hr
            obtain ⟨g, _, hm⟩ := processGroups_mem hpg r hr
            exact ⟨hm.2.1, hm.2.2⟩

/-! ### Concrete frames for witnesses (the worked scenario of the spec:
five source-A products scoring 0.9/0.8/0.7/0.6/0.4 against the query and
two source-B products scoring 0.95/0.3, requested count 3). -/

def rA0 : EmbRow :=
  { product_id := "a0", cluster_id := 1, data_source := "A", normalized_embeddings := "[1 0]" }

def rA1 : EmbRow :=
  { product_id := "a1", cluster_id := 1, data_source := "A", normalized_embeddings := "[0.9 0]" }

def rA2 : EmbRow :=
  { product_id := "a2", cluster_id := 1, data_source := "A", normalized_embeddings := "[0.8 0]" }

def rA3 : EmbRow :=
  { product_id := "a3", cluster_id := 1, data_source := "A", normalized_embeddings := "[0.7 0]" }

def rA4 : EmbRow :=
  { product_id := "a4", cluster_id := 1, data_source := "A", normalized_embeddings := "[0.6 0]" }

def rA5 : EmbRow :=
  { product_id := "a5", cluster_id := 1, data_source := "A", normalized_embeddings := "[0.4 0]" }

def rB1 : EmbRow :=
  { product_id := "b1", cluster_id := 1, data_source := "B", normalized_embeddings := "[0.95 0]" }

def rB2 : EmbRow :=
  { product_id := "b2", cluster_id := 1, data_source := "B", normalized_embeddings := "[0.3 0]" }

def scnDf : List EmbRow := [rA0, rA1, rA2, rA3, rA4, rA5, rB1, rB2]

/-- The cache after one search over `scnDf`: one index per source. -/
def scnCache : Cache :=
  [{ source := "A", cluster_id := 1,
     index := { d := 2,
                vecs := [[1, 0], [9/10, 0], [4/5, 0], [7/10, 0], [3/5, 0], [2/5, 0]] } },
   { source := "B", cluster_id := 1,
     index := { d := 2, vecs := [[19/20, 0], [3/10, 0]] } }]

/-- Result of the scenario search (count 3, threshold 1/2). -/
def scnResult : List ScoredRow :=
  [{ row := rA1, score := 9/10 }, { row := rA2, score := 4/5 },
   { row := rA3, score := 7/10 }, { row := rB1, score := 19/20 }]

/-- Result of the scenario search at threshold exactly 9/10: the row whose
score equals the threshold is kept. -/
def scnResultB : List ScoredRow :=
  [{ row := rA1, score := 9/10 }, { row := rB1, score := 19/20 }]

/-! ### C2: self-exclusion -/

/-- C2: for every embeddings frame, cache state, product id, requested count
and threshold, a successful `get_similar_products` result never contains the
query product: every returned row has a different product id. -/
theorem self_exclusion_spec {cache : Cache} {df : List EmbRow} {product_id : String}
    {num : Nat} {min_score : ℚ} {c' : Cache} {rs : List ScoredRow}
    (h : get_similar_products cache df product_id num min_score = .ok (c', some rs)) :
    ∀ r ∈ rs, r.row.product_id ≠ product_id :=
  fun r hr => (get_similar_products_mem h r hr).1

/-- Witness for C2 on the scenario frame: the first returned row is not the
query product `a0`. -/
theorem self_exclusion_spec_witness :
    ({ row := rA1, score := 9/10 } : ScoredRow).row.product_id ≠ "a0" :=
  self_exclusion_spec
    (show get_similar_products [] scnDf "a0" 3 (1/2) = .ok (scnCache, some scnResult)
      by with_unfolding_all rfl) _ (by with_unfolding_all decide)

/-! ### C5: score threshold -/

/-- C5: every row of a successful `get_similar_products` result scores at
least the configured threshold, and the threshold filter itself keeps a row
scoring exactly the threshold while dropping any row strictly below it
(membership in `thresholdFilter` is exactly `min_score ≤ score`). -/
theorem score_threshold_spec {cache : Cache} {df : List EmbRow} {product_id : String}
    {num : Nat} {min_score : ℚ} {c' : Cache} {rs : List ScoredRow}
    (h : get_similar_products cache df product_id num min_score = .ok (c', some rs)) :
    (∀ r ∈ rs, min_score ≤ r.score) ∧
    (∀ (rows : List ScoredRow) (r : ScoredRow), r ∈ rows →
      (r ∈ thresholdFilter min_score rows ↔ min_score ≤ r.score)) := by
  refine ⟨fun r hr => (get_similar_products_mem h r hr).2, fun rows r hr => ?_⟩
  unfold thresholdFilter
  rw [List.mem_filter]
  simp [hr]

/-- Witness for C5 at threshold exactly 9/10: the row scoring exactly 9/10
is returned, and its score meets the threshold. -/
theorem score_threshold_spec_witness :
    (9:ℚ)/10 ≤ ({ row := rA1, score := 9/10 } : ScoredRow).score :=
  (score_threshold_spec
    (show get_similar_products [] scnDf "a0" 3 (9/10) = .ok (scnCache, some scnResultB)
      by with_unfolding_all rfl)).1 _ (by with_unfolding_all decide)

/-! ### C1: behavior on absent products, no qualifying neighbors, and
singleton clusters -/

/-- Padding slots of a one-row partition all resolve back to that row
(`.iloc[-1]` wraps to the last position). -/
theorem ilocRows_replicate_self (p : EmbRow) (q : ℚ) :
    ∀ n, ilocRows [p] (List.replicate n (q, -1)) = some (List.replicate n ⟨p, q⟩)
  | 0 => by simp [ilocRows]
  | n + 1 => by
    rw [List.replicate_succ, List.replicate_succ]
    unfold ilocRows
    rw [ilocRows_replicate_self p q n]
    simp [iloc]

/-- C1 as stated is refuted at a concrete input: for a product id absent
from the embeddings frame, `get_similar_products` returns the Python `None`
sentinel (modelled `none`), not the empty result frame. -/
theorem empty_vs_none_counterexample :
    get_similar_products [] scnDf "zzz" 10 (1/2) = .ok ([], none) ∧
    ¬ ∃ c', get_similar_products [] scnDf "zzz" 10 (1/2) = .ok (c', some []) := by
  have h : get_similar_products [] scnDf "zzz" 10 (1/2) = .ok ([], none) := by
    with_unfolding_all rfl
  refine ⟨h, ?_⟩
  rintro ⟨c', hc⟩
  rw [h] at hc
  exact absurd hc (by simp)

/-- C1 (amended): for a product id absent from the embeddings frame,
`get_similar_products` returns the `None` sentinel (no exception, cache
untouched); when the product is present and its cluster has a single member
(and no stale cache entry shadows that partition), it returns the explicit
empty result frame `some []`. -/
theorem absent_and_singleton_spec (cache : Cache) (df : List EmbRow)
    (product_id : String) (num : Nat) (min_score : ℚ) :
    (df.filter (fun r => r.product_id = product_id) = [] →
      get_similar_products cache df product_id num min_score = .ok (cache, none)) ∧
    (∀ p rest, df.filter (fun r => r.product_id = product_id) = p :: rest →
      df.filter (fun r => r.cluster_id = p.cluster_id) = [p] →
      get_cached_index cache p.cluster_id p.data_source = none →
      ∃ c', get_similar_products cache df product_id num min_score = .ok (c', some [])) := by
  constructor
  · intro h
    simp only [get_similar_products, get_cluster_group_by_source, get_product_cluster, h]
  · intro p rest h1 h2 h3
    have hpid : p.product_id = product_id := by
      have hm : p ∈ df.filter (fun r => r.product_id = product_id) := by
        rw [h1]; exact List.mem_cons_self ..
      simpa using (List.mem_filter.mp hm).2
    have hgpc : get_product_cluster df product_id = some ([p], p, p.cluster_id) := by
      simp only [get_product_cluster, h1, h2]
    have hsrc : get_clusters_group_by_source [p] = [(p.data_source, [p])] := by
      simp [get_clusters_group_by_source, sortedSources, List.insertionSort,
        List.orderedInsert]
    set v : Vec := parseVec p.normalized_embeddings with hv
    have hmat : buildEmbMatrix [p] = .ok [v] := by
      simp [buildEmbMatrix]
    set idx : FaissIndex := { d := v.length, vecs := [v] } with hidx
    set entry : CacheEntry :=
      { source := p.data_source, cluster_id := p.cluster_id, index := idx } with hentry
    have hbg : buildGroups cache p.cluster_id [(p.data_source, [p])] =
        .ok (cache ++ [entry], [{ index := idx, source := p.data_source, data := [p] }]) := by
      unfold buildGroups
      rw [hmat, h3]
      unfold buildGroups
      simp [hidx, hentry]
    have hggs : get_cluster_group_by_source cache df product_id =
        .ok (cache ++ [entry], some ([{ index := idx, source := p.data_source, data := [p] }], p)) := by
      unfold get_cluster_group_by_source
      rw [hgpc]
      dsimp only
      rw [hsrc, hbg]
    have hsearch : fiSearch idx v (num + 1) =
        (dot v v, 0) :: List.replicate num (padScore, -1) := by
      unfold fiSearch
      simp [hidx, List.insertionSort, List.orderedInsert, List.take_succ_cons]
    have hiloc : ilocRows [p] ((dot v v, 0) :: List.replicate num (padScore, -1)) =
        some (⟨p, dot v v⟩ :: List.replicate num ⟨p, padScore⟩) := by
      unfold ilocRows
      rw [ilocRows_replicate_self p padScore num]
      simp [iloc]
    have hpp : processPartition product_id num min_score v
        { index := idx, source := p.data_source, data := [p] } = .ok [] := by
      unfold processPartition
      rw [if_pos (by simp [hidx])]
      dsimp only
      rw [hsearch, hiloc]
      dsimp only
      have hfilter : (⟨p, dot v v⟩ :: List.replicate num (⟨p, padScore⟩ : ScoredRow)).filter
          (fun r => r.row.product_id ≠ product_id) = [] := by
        rw [List.filter_eq_nil_iff]
        intro a ha
        rcases List.mem_cons.mp ha with h | h
        · subst h; simp [hpid]
        · rw [List.eq_of_mem_replicate h]; simp [hpid]
      rw [hfilter]
      simp [thresholdFilter, List.insertionSort]
    refine ⟨cache ++ [entry], ?_⟩
    unfold get_similar_products
    rw [hggs]
    dsimp only
    rw [h1]
    dsimp only [List.head?]
    unfold processGroups
    rw [hpp]
    unfold processGroups
    simp

/-- Witness for the amended C1 on concrete frames: the absent id `zzz`
yields the `none` sentinel, and a query whose cluster contains only itself
yields the explicit empty frame. -/
theorem absent_and_singleton_spec_witness :
    get_similar_products [] [rA0] "zzz" 10 (1/2) = .ok ([], none) ∧
    ∃ c', get_similar_products [] [rA0] "a0" 10 (1/2) = .ok (c', some []) :=
  ⟨(absent_and_singleton_spec [] [rA0] "zzz" 10 (1/2)).1 (by with_unfolding_all decide),
   (absent_and_singleton_spec [] [rA0] "a0" 10 (1/2)).2 rA0 []
     (by with_unfolding_all decide) (by with_unfolding_all decide)
     (by with_unfolding_all decide)⟩

/-! ### C3: not-found sentinel versus empty result -/

/-- C3: `get_similar_products_with_details` answers the `None` sentinel
(modelled `none`) exactly when the query product id is absent from the
catalog frame: absence gives `none` with the cache untouched, and any
successful call gives `none` if and only if the id is absent; the sentinel
is distinguishable from the empty result `some []`. -/
theorem not_found_spec (cache : Cache) (df_embeddings : List EmbRow)
    (df_products : List ProdRow) (product_id : String) (num : Nat) (min_score : ℚ)
    (only_best_price : Bool) (sort : List SortKey) (ascending : List Bool) :
    (df_products.filter (fun p => p.product_id = product_id) = [] →
      get_similar_products_with_details cache df_embeddings df_products product_id
        num min_score only_best_price sort ascending = .ok (cache, none)) ∧
    (∀ c' o, get_similar_products_with_details cache df_embeddings df_products product_id
        num min_score only_best_price sort ascending = .ok (c', o) →
      (o = none ↔ df_products.filter (fun p => p.product_id = product_id) = [])) ∧
    (none : Option (List DetailRow)) ≠ some [] := by
  refine ⟨?_, ?_, by simp⟩
  · intro h
    simp only [get_similar_products_with_details, h]
  · intro c' o h
    cases hf : df_products.filter (fun p => p.product_id = product_id) with
    | nil =>
      simp only [get_similar_products_with_details, hf] at h
      simp only [Except.ok.injEq, Prod.mk.injEq] at h
      rw [← h.2]
      simp
    | cons sp tl =>
      simp only [get_similar_products_with_details, hf] at h
      cases hs : get_similar_products cache df_embeddings product_id num min_score with
      | error e => rw [hs] at h; exact absurd h (by simp)
      | ok pr =>
        obtain ⟨c1, found?⟩ := pr
        rw [hs] at h
        cases found? with
        | none =>
          dsimp only at h
          simp only [Except.ok.injEq, Prod.mk.injEq] at h
          rw [← h.2]
          simp
        | some found =>
          dsimp only at h
          by_cases he : found.isEmpty
          · rw [if_pos he] at h
            simp only [Except.ok.injEq, Prod.mk.injEq] at h
            rw [← h.2]
            simp
          · rw [if_neg he] at h
            cases hd : detailsPipeline found df_products sp only_best_price sort ascending with
            | error e => rw [hd] at h; exact absurd h (by simp)
            | ok rows =>
              rw [hd] at h
              simp only [Except.ok.injEq, Prod.mk.injEq] at h
              rw [← h.2]
              simp

/-- Witness for C3: a catalog without the queried id produces the sentinel,
and a catalog with it (backed by an empty neighbor set) produces `some []`,
a different value. -/
theorem not_found_spec_witness :
    get_similar_products_with_details [] [rA0] [] "a0" 10 (1/2) false
      [.score, .sale_price] [false, true] = .ok ([], none) :=
  (not_found_spec [] [rA0] [] "a0" 10 (1/2) false
    [.score, .sale_price] [false, true]).1 (by with_unfolding_all decide)

/-! ### C4: per-source result cap -/

/-- The sorted group keys carry no duplicates. -/
theorem sortedSources_nodup (df : List EmbRow) : (sortedSources df).Nodup :=
  (List.perm_insertionSort (fun a b => a ≤ b) _).symm.nodup (List.nodup_dedup _)

/-- `buildGroups` reproduces exactly the (key, partition) pairs it was
given, one index group per pair, in order. -/
theorem buildGroups_shape {cluster_id : Int} :
    ∀ {cache : Cache} {gs : List (String × List EmbRow)} {c' : Cache}
      {igs : List IndexGroup},
      buildGroups cache cluster_id gs = .ok (c', igs) →
      igs.map (fun g => (g.source, g.data)) = gs
  | cache, [], c', igs, h => by
    unfold buildGroups at h
    simp only [Except.ok.injEq, Prod.mk.injEq] at h
    rw [← h.2]
    simp
  | cache, (s, data) :: rest, c', igs, h => by
    unfold buildGroups at h
    cases hm : buildEmbMatrix data with
    | error e => rw [hm] at h; exact absurd h (by simp)
    | ok vecs =>
      rw [hm] at h
      dsimp only at h
      cases hc : get_cached_index cache cluster_id s with
      | some index =>
        rw [hc] at h
        cases hr : buildGroups cache cluster_id rest with
        | error e => rw [hr] at h; exact absurd h (by simp)
        | ok pr =>
          obtain ⟨c1, gs1⟩ := pr
          rw [hr] at h
          simp only [Except.ok.injEq, Prod.mk.injEq] at h
          rw [← h.2]
          simpa using buildGroups_shape hr
      | none =>
        rw [hc] at h
        dsimp only at h
        set entry2 : CacheEntry :=
          { source := s, cluster_id := cluster_id,
            index := { d := (vecs.headI).length, vecs := vecs } } with hentry2
        cases hr : buildGroups (cache ++ [entry2]) cluster_id rest with
        | error e => rw [hr] at h; exact absurd h (by simp)
        | ok pr =>
          obtain ⟨c1, gs1⟩ := pr
          rw [hr] at h
          simp only [Except.ok.injEq, Prod.mk.injEq] at h
          rw [← h.2]
          simpa using buildGroups_shape hr

/-- Structural facts about a successful partition resolution: group sources
are pairwise distinct and every partition row belongs to its group's
source. -/
theorem get_cluster_group_by_source_inv {cache : Cache} {df : List EmbRow}
    {product_id : String} {c' : Cache} {groups : List IndexGroup} {p : EmbRow}
    (h : get_cluster_group_by_source cache df product_id = .ok (c', some (groups, p))) :
    (groups.map (fun g => g.source)).Nodup ∧
    ∀ g ∈ groups, ∀ r ∈ g.data, r.data_source = g.source := by
  unfold get_cluster_group_by_source at h
  cases hg : get_product_cluster df product_id with
  | none => rw [hg] at h; simp at h
  | some tri =>
    obtain ⟨cluster, q, cid⟩ := tri
    rw [hg] at h
    dsimp only at h
    cases hb : buildGroups cache cid (get_clusters_group_by_source cluster) with
    | error e => rw [hb] at h; exact absurd h (by simp)
    | ok pr =>
      obtain ⟨c1, gs⟩ := pr
      rw [hb] at h
      simp only [Except.ok.injEq, Prod.mk.injEq, Option.some.injEq] at h
      obtain ⟨h4, h5, h6⟩ := h
      have hshape := buildGroups_shape hb
      rw [← h5]
      constructor
      · have h7 : gs.map (fun g => g.source) =
            ((gs.map (fun g => (g.source, g.data))).map Prod.fst) := by
          rw [List.map_map]
          rfl
        rw [h7, hshape]
        unfold get_clusters_group_by_source
        rw [List.map_map]
        have h8 : (Prod.fst ∘ fun s => (s, cluster.filter (fun r => r.data_source = s)))
            = fun s : String => s := rfl
        rw [h8, List.map_id']
        exact sortedSources_nodup cluster
      · intro g hg' r hr
        have hmem : (g.source, g.data) ∈ get_clusters_group_by_source cluster := by
          rw [← hshape]
          exact List.mem_map_of_mem _ hg'
        unfold get_clusters_group_by_source at hmem
        obtain ⟨s, _, hpair⟩ := List.mem_map.mp hmem
        have hdata : g.data = cluster.filter (fun r => r.data_source = s) := by
          have := congrArg Prod.snd hpair
          simpa using this.symm
        have hsrc : s = g.source := by
          have := congrArg Prod.fst hpair
          simpa using this
        rw [hdata] at hr
        rw [← hsrc]
        simpa using (List.mem_filter.mp hr).2

/-- A successful partition search returns at most `num` rows. -/
theorem processPartition_length {product_id : String} {num : Nat} {min_score : ℚ}
    {query : Vec} {g : IndexGroup} {rs : List ScoredRow}
    (h : processPartition product_id num min_score query g = .ok rs) :
    rs.length ≤ num := by
  unfold processPartition at h
  split at h
  · cases hi : ilocRows g.data (fiSearch g.index query (num + 1)) with
    | none => rw [hi] at h; exact absurd h (by simp)
    | some rows =>
      rw [hi] at h
      simp only [Except.ok.injEq] at h
      rw [← h]
      exact List.length_take_le ..
  · exact absurd h (by simp)

/-- Across a successful multi-partition search, at most `num` of the
concatenated rows belong to any one data source. -/
theorem processGroups_countP {product_id : String} {num : Nat} {min_score : ℚ}
    {query : Vec} (src : String) :
    ∀ {gs : List IndexGroup} {parts : List (List ScoredRow)},
      processGroups product_id num min_score query gs = .ok parts →
      (gs.map (fun g => g.source)).Nodup →
      (∀ g ∈ gs, ∀ r ∈ g.data, r.data_source = g.source) →
      (parts.flatten).countP (fun r => r.row.data_source = src) ≤ num
  | [], parts, h, _, _ => by
    unfold processGroups at h
    simp only [Except.ok.injEq] at h
    rw [← h]
    simp
  | g :: gs, parts, h, hnd, hsrc => by
    unfold processGroups at h
    cases hp : processPartition product_id num min_score query g with
    | error e => rw [hp] at h; exact absurd h (by simp)
    | ok rs =>
      rw [hp] at h
      cases ht : processGroups product_id num min_score query gs with
      | error e => rw [ht] at h; exact absurd h (by simp)
      | ok rest =>
        rw [ht] at h
        simp only [Except.ok.injEq] at h
        rw [← h]
        rw [List.flatten_cons, List.countP_append]
        by_cases hcase : g.source = src
        · have hz : (rest.flatten).countP (fun r => r.row.data_source = src) = 0 := by
            rw [List.countP_eq_zero]
            intro r hr
            obtain ⟨g', hg', hm, _, _⟩ := processGroups_mem ht r hr
            have h1 : r.row.data_source = g'.source :=
              hsrc g' (List.mem_cons_of_mem _ hg') r.row hm
            rw [List.map_cons, List.nodup_cons] at hnd
            have h2 : g'.source ≠ src := fun hs => hnd.1 (by
              rw [hcase, ← hs]
              exact List.mem_map_of_mem _ hg')
            simp [h1, h2]
          rw [hz]
          have := processPartition_length hp
          have hle := List.countP_le_length
            (p := fun r => decide (r.row.data_source = src)) (l := rs)
          omega
        · have hz : rs.countP (fun r => r.row.data_source = src) = 0 := by
            rw [List.countP_eq_zero]
            intro r hr
            have h1 := (processPartition_mem hp r hr).1
            have h2 : r.row.data_source = g.source := hsrc g (List.mem_cons_self ..) r.row h1
            simp [h2, hcase]
          rw [hz]
          rw [List.map_cons, List.nodup_cons] at hnd
          have hrec := processGroups_countP src ht hnd.2
            (fun g' hg' => hsrc g' (List.mem_cons_of_mem _ hg'))
          omega

/-- Helper form of the per-source cap for `get_similar_products`. -/
theorem get_similar_products_countP {cache : Cache} {df : List EmbRow}
    {product_id : String} {num : Nat} {min_score : ℚ} {c' : Cache}
    {rs : List ScoredRow}
    (h : get_similar_products cache df product_id num min_score = .ok (c', some rs))
    (src : String) :
    rs.countP (fun r => r.row.data_source = src) ≤ num := by
  unfold get_similar_products at h
  cases hgc : get_cluster_group_by_source cache df product_id with
  | error e => rw [hgc] at h; exact absurd h (by simp)
  | ok pair =>
    rw [hgc] at h
    obtain ⟨c1, o⟩ := pair
    cases o with
    | none => simp at h
    | some pr =>
      obtain ⟨groups, product⟩ := pr
      have hinv := get_cluster_group_by_source_inv hgc
      cases hq : (df.filter (fun r => r.product_id = product_id)).head? with
      | none => simp [hq] at h
      | some qrow =>
        simp only [hq] at h
        cases hpg : processGroups product_id num min_score
            (parseVec qrow.normalized_embeddings) groups with
        | error e => rw [hpg] at h; exact absurd h (by simp)
        | ok parts =>
          rw [hpg] at h
          dsimp only at h
          by_cases he : parts.isEmpty
          · rw [if_pos he] at h
            simp only [Except.ok.injEq, Prod.mk.injEq, Option.some.injEq] at h
            rw [← h.2]
            simp
          · rw [if_neg he] at h
            simp only [Except.ok.injEq, Prod.mk.injEq, Option.some.injEq] at h
            rw [← h.2]
            exact processGroups_countP src hpg hinv.1 hinv.2

/-- In a catalog with pairwise-distinct product ids, at most one row
matches any id. -/
theorem filter_pid_length_le_one :
    ∀ (prods : List ProdRow), (prods.map (fun p => p.product_id)).Nodup →
      ∀ x, (prods.filter (fun p => p.product_id = x)).length ≤ 1
  | [], _, x => by simp
  | p :: ps, h, x => by
    rw [List.map_cons, List.nodup_cons] at h
    by_cases hp : p.product_id = x
    · rw [List.filter_cons_of_pos (by simpa using hp)]
      have hnil : ps.filter (fun q => q.product_id = x) = [] := by
        rw [List.filter_eq_nil_iff]
        intro q hq hqx
        have hqx' : q.product_id = x := by simpa using hqx
        exact h.1 (by
          rw [hp, ← hqx']
          exact List.mem_map_of_mem _ hq)
      rw [hnil]
      simp
    · rw [List.filter_cons_of_neg (by simpa using hp)]
      exact filter_pid_length_le_one ps h.2 x

/-- Every joined row carries the candidate's (embeddings-side) data
source. -/
theorem joinBlock_source (df_products : List ProdRow) (sr : ScoredRow) :
    ∀ d ∈ joinBlock df_products sr, d.data_source = sr.row.data_source := by
  intro d hd
  unfold joinBlock at hd
  split at hd
  · rcases List.mem_singleton.mp hd with rfl
    rfl
  · obtain ⟨q, _, rfl⟩ := List.mem_map.mp hd
    rfl

/-- With unique catalog ids a candidate joins to at most one row. -/
theorem joinBlock_length (df_products : List ProdRow)
    (hnd : (df_products.map (fun p => p.product_id)).Nodup) (sr : ScoredRow) :
    (joinBlock df_products sr).length ≤ 1 := by
  unfold joinBlock
  cases hf : df_products.filter (fun p => p.product_id = sr.row.product_id) with
  | nil => simp
  | cons m ms =>
    rw [List.length_map]
    have := filter_pid_length_le_one df_products hnd sr.row.product_id
    rw [hf] at this
    exact this

/-- The left join multiplies no rows when catalog ids are unique: per data
source, the joined frame has no more rows than the candidate frame. -/
theorem mergeDetails_countP (df_products : List ProdRow)
    (hnd : (df_products.map (fun p => p.product_id)).Nodup) (src : String) :
    ∀ (found : List ScoredRow),
      (mergeDetails found df_products).countP (fun d => d.data_source = src) ≤
        found.countP (fun r => r.row.data_source = src)
  | [] => by simp [mergeDetails]
  | sr :: rest => by
    unfold mergeDetails
    rw [List.flatMap_cons, List.countP_append, List.countP_cons]
    have hrec := mergeDetails_countP df_products hnd src rest
    unfold mergeDetails at hrec
    have hblock : (joinBlock df_products sr).countP (fun d => d.data_source = src) ≤
        (if decide (sr.row.data_source = src) = true then 1 else 0) := by
      by_cases hsrc : sr.row.data_source = src
      · rw [if_pos (by simpa using hsrc)]
        exact le_trans (List.countP_le_length _) (joinBlock_length df_products hnd sr)
      · rw [if_neg (by simpa using hsrc)]
        rw [Nat.le_zero, List.countP_eq_zero]
        intro d hd
        simp [joinBlock_source df_products sr d hd, hsrc]
    omega

/-- Per-source bound through the full details pipeline: the final frame has
no more rows of any source than the candidate frame. -/
theorem detailsPipeline_countP {found : List ScoredRow} {df_products : List ProdRow}
    {search_product : ProdRow} {only_best_price : Bool} {sort : List SortKey}
    {ascending : List Bool} {ds : List DetailRow}
    (h : detailsPipeline found df_products search_product only_best_price
      sort ascending = .ok ds)
    (hnd : (df_products.map (fun p => p.product_id)).Nodup) (src : String) :
    ds.countP (fun d => d.data_source = src) ≤
      found.countP (fun r => r.row.data_source = src) := by
  have hsv : ∀ (rows : List DetailRow),
      sortAndValidate sort ascending rows = .ok ds →
      ds.countP (fun d => d.data_source = src) ≤
        rows.countP (fun d => d.data_source = src) := by
    intro rows hrows
    unfold sortAndValidate at hrows
    split at hrows
    · simp only [Except.ok.injEq] at hrows
      rw [← hrows]
      have h1 : (((List.insertionSort (sortLe (sort.zip ascending)) rows).filter
          (fun r => validName r.product_name)).filter
          (fun r => validPrice r.sale_price)).countP (fun d => d.data_source = src) ≤
          (List.insertionSort (sortLe (sort.zip ascending)) rows).countP
            (fun d => d.data_source = src) :=
        ((List.filter_sublist _).trans (List.filter_sublist _)).countP_le _
      have h2 := (List.perm_insertionSort (sortLe (sort.zip ascending)) rows).countP_eq
        (fun d => decide (d.data_source = src))
      omega
    · exact absurd hrows (by simp)
  have hmerge := mergeDetails_countP df_products hnd src found
  unfold detailsPipeline at h
  split at h
  · simp only [] at h
    by_cases hemp : ((mergeDetails found df_products).filter
        (fun r => priceLt r.sale_price search_product.sale_price)).isEmpty
    · rw [if_pos hemp] at h
      simp only [Except.ok.injEq] at h
      rw [← h]
      simp
    · rw [if_neg hemp] at h
      have hsub := hsv _ h
      have hfil : ((mergeDetails found df_products).filter
          (fun r => priceLt r.sale_price search_product.sale_price)).countP
            (fun d => d.data_source = src) ≤
          (mergeDetails found df_products).countP (fun d => d.data_source = src) :=
        (List.filter_sublist _).countP_le _
      omega
  · have hsub := hsv _ h
    omega

/-- C4: a successful `get_similar_products` result contains at most the
requested number of rows from any one data source, and the same bound holds
for the detailed result after the catalog join whenever catalog product ids
are unique (the data-model invariant of the catalog table). -/
theorem per_source_cap_spec {cache : Cache} {df_embeddings : List EmbRow}
    {df_products : List ProdRow} {product_id : String} {num : Nat} {min_score : ℚ}
    {only_best_price : Bool} {sort : List SortKey} {ascending : List Bool}
    {c1 c2 : Cache} {rs : List ScoredRow} {ds : List DetailRow} :
    ((get_similar_products cache df_embeddings product_id num min_score =
        .ok (c1, some rs)) →
      ∀ src, rs.countP (fun r => r.row.data_source = src) ≤ num) ∧
    ((df_products.map (fun p => p.product_id)).Nodup →
      get_similar_products_with_details cache df_embeddings df_products product_id
        num min_score only_best_price sort ascending = .ok (c2, some ds) →
      ∀ src, ds.countP (fun d => d.data_source = src) ≤ num) := by
  constructor
  · intro h src
    exact get_similar_products_countP h src
  · intro hnd h src
    unfold get_similar_products_with_details at h
    cases hf : df_products.filter (fun p => p.product_id = product_id) with
    | nil => rw [hf] at h; simp at h
    | cons sp tl =>
      rw [hf] at h
      cases hs : get_similar_products cache df_embeddings product_id num min_score with
      | error e => rw [hs] at h; exact absurd h (by simp)
      | ok pr =>
        obtain ⟨c0, found?⟩ := pr
        rw [hs] at h
        cases found? with
        | none =>
          dsimp only at h
          simp only [Except.ok.injEq, Prod.mk.injEq, Option.some.injEq] at h
          rw [← h.2]
          simp
        | some found =>
          dsimp only at h
          by_cases he : found.isEmpty
          · rw [if_pos he] at h
            simp only [Except.ok.injEq, Prod.mk.injEq, Option.some.injEq] at h
            rw [← h.2]
            simp
          · rw [if_neg he] at h
            cases hd : detailsPipeline found df_products sp only_best_price
                sort ascending with
            | error e => rw [hd] at h; exact absurd h (by simp)
            | ok rows =>
              rw [hd] at h
              simp only [Except.ok.injEq, Prod.mk.injEq, Option.some.injEq] at h
              rw [← h.2]
              exact le_trans (detailsPipeline_countP hd hnd src)
                (get_similar_products_countP hs src)

/-! ### Catalog frames for the detailed-search witnesses -/

def pA0 : ProdRow :=
  { product_id := "a0", product_name := some "Query", product_desc := none,
    sale_price := some 100, data_source := "A", url := none, image := none }

def pA1 : ProdRow :=
  { product_id := "a1", product_name := some "P1", product_desc := none,
    sale_price := some 80, data_source := "A", url := none, image := none }

def pA2 : ProdRow :=
  { product_id := "a2", product_name := some "P2", product_desc := none,
    sale_price := some 150, data_source := "A", url := none, image := none }

def pA3 : ProdRow :=
  { product_id := "a3", product_name := some "P3", product_desc := none,
    sale_price := some 70, data_source := "A", url := none, image := none }

def pB1 : ProdRow :=
  { product_id := "b1", product_name := some "PB", product_desc := none,
    sale_price := some 60, data_source := "B", url := none, image := none }

def scnCat : List ProdRow := [pA0, pA1, pA2, pA3, pB1]

/-- Detailed scenario result without the best-price filter. -/
def scnDetails : List DetailRow :=
  [{ product_id := "b1", product_name := some "PB", product_desc := none,
     sale_price := some 60, data_source := "B", cluster_id := 1, score := 19/20,
     url := none, image := none },
   { product_id := "a1", product_name := some "P1", product_desc := none,
     sale_price := some 80, data_source := "A", cluster_id := 1, score := 9/10,
     url := none, image := none },
   { product_id := "a2", product_name := some "P2", product_desc := none,
     sale_price := some 150, data_source := "A", cluster_id := 1, score := 4/5,
     url := none, image := none },
   { product_id := "a3", product_name := some "P3", product_desc := none,
     sale_price := some 70, data_source := "A", cluster_id := 1, score := 7/10,
     url := none, image := none }]

/-- Detailed scenario result with the best-price filter: the row priced
above the query product (150 ≥ 100) disappears. -/
def scnDetailsBest : List DetailRow :=
  [{ product_id := "b1", product_name := some "PB", product_desc := none,
     sale_price := some 60, data_source := "B", cluster_id := 1, score := 19/20,
     url := none, image := none },
   { product_id := "a1", product_name := some "P1", product_desc := none,
     sale_price := some 80, data_source := "A", cluster_id := 1, score := 9/10,
     url := none, image := none },
   { product_id := "a3", product_name := some "P3", product_desc := none,
     sale_price := some 70, data_source := "A", cluster_id := 1, score := 7/10,
     url := none, image := none }]

/-- Witness for C4: on the scenario frames with requested count 3, source A
supplies exactly its cap in the similarity result and in the joined detailed
result, even though four of its candidates qualify. -/
theorem per_source_cap_spec_witness :
    scnResult.countP (fun r => r.row.data_source = "A") ≤ 3 ∧
    scnDetails.countP (fun d => d.data_source = "A") ≤ 3 :=
  ⟨(@per_source_cap_spec [] scnDf scnCat "a0" 3 (1/2) false [.score, .sale_price]
      [false, true] scnCache scnCache scnResult scnDetails).1
    (show get_similar_products [] scnDf "a0" 3 (1/2) = .ok (scnCache, some scnResult)
      by with_unfolding_all rfl) "A",
   (@per_source_cap_spec [] scnDf scnCat "a0" 3 (1/2) false [.score, .sale_price]
      [false, true] scnCache scnCache scnResult scnDetails).2
    (by with_unfolding_all decide)
    (show get_similar_products_with_details [] scnDf scnCat "a0" 3 (1/2) false
        [.score, .sale_price] [false, true] = .ok (scnCache, some scnDetails)
      by with_unfolding_all rfl) "A"⟩

/-! ### C10: the engine only appends to its index cache -/

/-- `buildGroups` never removes or rewrites cache entries: the cache it
returns is the cache it received plus freshly built entries at the end. -/
theorem buildGroups_cache_extends {cluster_id : Int} :
    ∀ {cache : Cache} {gs : List (String × List EmbRow)} {c' : Cache}
      {igs : List IndexGroup},
      buildGroups cache cluster_id gs = .ok (c', igs) →
      ∃ new, c' = cache ++ new
  | cache, [], c', igs, h => by
    unfold buildGroups at h
    simp only [Except.ok.injEq, Prod.mk.injEq] at h
    exact ⟨[], by rw [← h.1]; simp⟩
  | cache, (s, data) :: rest, c', igs, h => by
    unfold buildGroups at h
    cases hm : buildEmbMatrix data with
    | error e => rw [hm] at h; exact absurd h (by simp)
    | ok vecs =>
      rw [hm] at h
      dsimp only at h
      cases hc : get_cached_index cache cluster_id s with
      | some index =>
        rw [hc] at h
        cases hr : buildGroups cache cluster_id rest with
        | error e => rw [hr] at h; exact absurd h (by simp)
        | ok pr =>
          obtain ⟨c1, gs1⟩ := pr
          rw [hr] at h
          simp only [Except.ok.injEq, Prod.mk.injEq] at h
          obtain ⟨new, hnew⟩ := buildGroups_cache_extends hr
          exact ⟨new, by rw [← h.1, hnew]⟩
      | none =>
        rw [hc] at h
        dsimp only at h
        set entry2 : CacheEntry :=
          { source := s, cluster_id := cluster_id,
            index := { d := (vecs.headI).length, vecs := vecs } } with hentry2
        cases hr : buildGroups (cache ++ [entry2]) cluster_id rest with
        | error e => rw [hr] at h; exact absurd h (by simp)
        | ok pr =>
          obtain ⟨c1, gs1⟩ := pr
          rw [hr] at h
          simp only [Except.ok.injEq, Prod.mk.injEq] at h
          obtain ⟨new, hnew⟩ := buildGroups_cache_extends hr
          exact ⟨entry2 :: new, by rw [← h.1, hnew]; simp⟩

/-- Same append-only guarantee through partition resolution. -/
theorem get_cluster_group_by_source_cache {cache : Cache} {df : List EmbRow}
    {product_id : String} {c' : Cache} {o : Option (List IndexGroup × EmbRow)}
    (h : get_cluster_group_by_source cache df product_id = .ok (c', o)) :
    ∃ new, c' = cache ++ new := by
  unfold get_cluster_group_by_source at h
  cases hg : get_product_cluster df product_id with
  | none =>
    rw [hg] at h
    simp only [Except.ok.injEq, Prod.mk.injEq] at h
    exact ⟨[], by rw [← h.1]; simp⟩
  | some tri =>
    obtain ⟨cluster, q, cid⟩ := tri
    rw [hg] at h
    dsimp only at h
    cases hb : buildGroups cache cid (get_clusters_group_by_source cluster) with
    | error e => rw [hb] at h; exact absurd h (by simp)
    | ok pr =>
      obtain ⟨c1, gs⟩ := pr
      rw [hb] at h
      simp only [Except.ok.injEq, Prod.mk.injEq] at h
      obtain ⟨new, hnew⟩ := buildGroups_cache_extends hb
      exact ⟨new, by rw [← h.1, hnew]⟩

/-- Append-only guarantee for the plain search entry point. -/
theorem get_similar_products_cache {cache : Cache} {df : List EmbRow}
    {product_id : String} {num : Nat} {min_score : ℚ} {c' : Cache}
    {o : Option (List ScoredRow)}
    (h : get_similar_products cache df product_id num min_score = .ok (c', o)) :
    ∃ new, c' = cache ++ new := by
  unfold get_similar_products at h
  cases hgc : get_cluster_group_by_source cache df product_id with
  | error e => rw [hgc] at h; exact absurd h (by simp)
  | ok pair =>
    rw [hgc] at h
    obtain ⟨c1, o1⟩ := pair
    have hext := get_cluster_group_by_source_cache hgc
    cases o1 with
    | none =>
      simp only [Except.ok.injEq, Prod.mk.injEq] at h
      exact ⟨hext.choose, by rw [← h.1]; exact hext.choose_spec⟩
    | some pr =>
      obtain ⟨groups, product⟩ := pr
      dsimp only at h
      cases hq : (df.filter (fun r => r.product_id = product_id)).head? with
      | none => simp [hq] at h
      | some qrow =>
        simp only [hq] at h
        cases hpg : processGroups product_id num min_score
            (parseVec qrow.normalized_embeddings) groups with
        | error e => rw [hpg] at h; exact absurd h (by simp)
        | ok parts =>
          rw [hpg] at h
          dsimp only at h
          by_cases he : parts.isEmpty
          · rw [if_pos he] at h
            simp only [Except.ok.injEq, Prod.mk.injEq] at h
            exact ⟨hext.choose, by rw [← h.1]; exact hext.choose_spec⟩
          · rw [if_neg he] at h
            simp only [Except.ok.injEq, Prod.mk.injEq] at h
            exact ⟨hext.choose, by rw [← h.1]; exact hext.choose_spec⟩

/-- C10: both entry points, modelled as functions of an explicit engine
state (the index cache) and immutable input frames, touch no state other
than that cache, and only ever append to it: the cache coming out of a
successful call is the incoming cache extended with the newly built index
entries. -/
theorem frame_cache_append_spec {cache : Cache} {df_embeddings : List EmbRow}
    {df_products : List ProdRow} {product_id : String} {num : Nat} {min_score : ℚ}
    {only_best_price : Bool} {sort : List SortKey} {ascending : List Bool}
    {c1 c2 : Cache} {o1 : Option (List ScoredRow)} {o2 : Option (List DetailRow)} :
    (get_similar_products cache df_embeddings product_id num min_score =
        .ok (c1, o1) → ∃ new, c1 = cache ++ new) ∧
    (get_similar_products_with_details cache df_embeddings df_products product_id
        num min_score only_best_price sort ascending = .ok (c2, o2) →
      ∃ new, c2 = cache ++ new) := by
  constructor
  · exact fun h => get_similar_products_cache h
  · intro h
    unfold get_similar_products_with_details at h
    cases hf : df_products.filter (fun p => p.product_id = product_id) with
    | nil =>
      rw [hf] at h
      simp only [Except.ok.injEq, Prod.mk.injEq] at h
      exact ⟨[], by rw [← h.1]; simp⟩
    | cons sp tl =>
      rw [hf] at h
      cases hs : get_similar_products cache df_embeddings product_id num min_score with
      | error e => rw [hs] at h; exact absurd h (by simp)
      | ok pr =>
        obtain ⟨c0, found?⟩ := pr
        rw [hs] at h
        have hext := get_similar_products_cache hs
        cases found? with
        | none =>
          simp only [Except.ok.injEq, Prod.mk.injEq] at h
          exact ⟨hext.choose, by rw [← h.1]; exact hext.choose_spec⟩
        | some found =>
          dsimp only at h
          by_cases he : found.isEmpty
          · rw [if_pos he] at h
            simp only [Except.ok.injEq, Prod.mk.injEq] at h
            exact ⟨hext.choose, by rw [← h.1]; exact hext.choose_spec⟩
          · rw [if_neg he] at h
            cases hd : detailsPipeline found df_products sp only_best_price
                sort ascending with
            | error e => rw [hd] at h; exact absurd h (by simp)
            | ok rows =>
              rw [hd] at h
              simp only [Except.ok.injEq, Prod.mk.injEq] at h
              exact ⟨hext.choose, by rw [← h.1]; exact hext.choose_spec⟩

/-- Witness for C10: a fresh engine serving the scenario query ends up with
exactly the two new per-source index entries appended to its (empty)
cache. -/
theorem frame_cache_append_spec_witness :
    ∃ new, scnCache = ([] : Cache) ++ new :=
  (@frame_cache_append_spec [] scnDf scnCat "a0" 3 (1/2) false
      [.score, .sale_price] [false, true] scnCache scnCache (some scnResult)
      (some scnDetails)).1
    (show get_similar_products [] scnDf "a0" 3 (1/2) = .ok (scnCache, some scnResult)
      by with_unfolding_all rfl)

/-! ### C8: data-quality gate on names and prices -/

/-- Unfolding of the name gate. -/
theorem validName_spec {n : Option String} (h : validName n = true) :
    ∃ s, n = some s ∧ s ≠ "" ∧ s.trim ≠ "" := by
  cases n with
  | none => simp [validName] at h
  | some s =>
    simp only [validName, Bool.and_eq_true, decide_eq_true_eq] at h
    exact ⟨s, rfl, h.1, h.2⟩

/-- Unfolding of the price gate. -/
theorem validPrice_spec {p : Option ℚ} (h : validPrice p = true) :
    ∃ q, p = some q ∧ 0 < q := by
  cases p with
  | none => simp [validPrice] at h
  | some q =>
    simp only [validPrice, decide_eq_true_eq] at h
    exact ⟨q, rfl, h⟩

/-- Every row of a successful detailed result passed both validity
filters. -/
theorem details_mem_valid {cache : Cache} {df_embeddings : List EmbRow}
    {df_products : List ProdRow} {product_id : String} {num : Nat} {min_score : ℚ}
    {only_best_price : Bool} {sort : List SortKey} {ascending : List Bool}
    {c' : Cache} {ds : List DetailRow}
    (h : get_similar_products_with_details cache df_embeddings df_products product_id
      num min_score only_best_price sort ascending = .ok (c', some ds)) :
    ∀ d ∈ ds, validName d.product_name = true ∧ validPrice d.sale_price = true := by
  have hsv : ∀ (rows : List DetailRow), sortAndValidate sort ascending rows = .ok ds →
      ∀ d ∈ ds, validName d.product_name = true ∧ validPrice d.sale_price = true := by
    intro rows hrows d hd
    unfold sortAndValidate at hrows
    split at hrows
    · simp only [Except.ok.injEq] at hrows
      rw [← hrows] at hd
      have h1 := List.mem_filter.mp hd
      have h2 := List.mem_filter.mp h1.1
      exact ⟨h2.2, h1.2⟩
    · exact absurd hrows (by simp)
  unfold get_similar_products_with_details at h
  cases hf : df_products.filter (fun p => p.product_id = product_id) with
  | nil => rw [hf] at h; simp at h
  | cons sp tl =>
    rw [hf] at h
    cases hs : get_similar_products cache df_embeddings product_id num min_score with
    | error e => rw [hs] at h; exact absurd h (by simp)
    | ok pr =>
      obtain ⟨c0, found?⟩ := pr
      rw [hs] at h
      cases found? with
      | none =>
        dsimp only at h
        simp only [Except.ok.injEq, Prod.mk.injEq, Option.some.injEq] at h
        rw [← h.2]
        intro d hd
        exact absurd hd (by simp)
      | some found =>
        dsimp only at h
        by_cases he : found.isEmpty
        · rw [if_pos he] at h
          simp only [Except.ok.injEq, Prod.mk.injEq, Option.some.injEq] at h
          rw [← h.2]
          intro d hd
          exact absurd hd (by simp)
        · rw [if_neg he] at h
          cases hd : detailsPipeline found df_products sp only_best_price
              sort ascending with
          | error e => rw [hd] at h; exact absurd h (by simp)
          | ok rows =>
            rw [hd] at h
            simp only [Except.ok.injEq, Prod.mk.injEq, Option.some.injEq] at h
            obtain ⟨hc0, hrows⟩ := h
            subst hrows
            unfold detailsPipeline at hd
            split at hd
            · simp only [] at hd
              by_cases hemp : ((mergeDetails found df_products).filter
                  (fun r => priceLt r.sale_price sp.sale_price)).isEmpty
              · rw [if_pos hemp] at hd
                simp only [Except.ok.injEq] at hd
                rw [← hd]
                intro d hdm
                exact absurd hdm (by simp)
              · rw [if_neg hemp] at hd
                exact hsv _ hd
            · exact hsv _ hd

/-- C8: every row of a successful detailed result has a present, non-empty,
non-whitespace name and a present, strictly positive price. -/
theorem valid_rows_spec {cache : Cache} {df_embeddings : List EmbRow}
    {df_products : List ProdRow} {product_id : String} {num : Nat} {min_score : ℚ}
    {only_best_price : Bool} {sort : List SortKey} {ascending : List Bool}
    {c' : Cache} {ds : List DetailRow}
    (h : get_similar_products_with_details cache df_embeddings df_products product_id
      num min_score only_best_price sort ascending = .ok (c', some ds)) :
    ∀ d ∈ ds, (∃ s, d.product_name = some s ∧ s ≠ "" ∧ s.trim ≠ "") ∧
      (∃ p, d.sale_price = some p ∧ 0 < p) := by
  intro d hd
  have hv := details_mem_valid h d hd
  exact ⟨validName_spec hv.1, validPrice_spec hv.2⟩

/-- Witness for C8 on the scenario frames: the top returned row carries the
name `PB` (non-blank) and the positive price 60. -/
theorem valid_rows_spec_witness :
    (∃ s, (some "PB" : Option String) = some s ∧ s ≠ "" ∧ s.trim ≠ "") ∧
    (∃ p, (some (60:ℚ) : Option ℚ) = some p ∧ 0 < p) :=
  valid_rows_spec
    (show get_similar_products_with_details [] scnDf scnCat "a0" 3 (1/2) false
        [.score, .sale_price] [false, true] = .ok (scnCache, some scnDetails)
      by with_unfolding_all rfl)
    { product_id := "b1", product_name := some "PB", product_desc := none,
      sale_price := some 60, data_source := "B", cluster_id := 1, score := 19/20,
      url := none, image := none }
    (by with_unfolding_all decide)

/-! ### C6: best-price filter -/

/-- The strict comparison only succeeds on two present prices. -/
theorem priceLt_spec {a b : Option ℚ} (h : priceLt a b = true) :
    ∃ p q, a = some p ∧ b = some q ∧ p < q := by
  cases a with
  | none => simp [priceLt] at h
  | some p =>
    cases b with
    | none => simp [priceLt] at h
    | some q =>
      simp only [priceLt, decide_eq_true_eq] at h
      exact ⟨p, q, rfl, rfl, h⟩

/-- With a well-formed sort configuration, `sortAndValidate` never fails and
returns exactly the validity-filtered sorted frame. -/
theorem sortAndValidate_eq {sort : List SortKey} {ascending : List Bool}
    (hlen : sort.length = ascending.length) (rows : List DetailRow) :
    sortAndValidate sort ascending rows =
      .ok (((List.insertionSort (sortLe (sort.zip ascending)) rows).filter
        (fun r => validName r.product_name)).filter
        (fun r => validPrice r.sale_price)) := by
  unfold sortAndValidate
  rw [if_pos hlen]

/-- Membership in a `sortAndValidate` output frame. -/
theorem mem_sortAndValidate_out {sort : List SortKey} {ascending : List Bool}
    {rows : List DetailRow} {d : DetailRow} :
    d ∈ ((List.insertionSort (sortLe (sort.zip ascending)) rows).filter
        (fun r => validName r.product_name)).filter
        (fun r => validPrice r.sale_price) ↔
      (d ∈ rows ∧ validName d.product_name = true ∧ validPrice d.sale_price = true) := by
  rw [List.mem_filter, List.mem_filter,
    (List.perm_insertionSort (sortLe (sort.zip ascending)) rows).mem_iff]
  tauto

/-- With a well-formed sort configuration the pipeline succeeds for either
setting of the best-price toggle. -/
theorem detailsPipeline_ok {sort : List SortKey} {ascending : List Bool}
    (hlen : sort.length = ascending.length) (found : List ScoredRow)
    (df_products : List ProdRow) (sp : ProdRow) (obp : Bool) :
    ∃ rs, detailsPipeline found df_products sp obp sort ascending = .ok rs := by
  unfold detailsPipeline
  cases obp with
  | false =>
    rw [if_neg (by simp)]
    exact ⟨_, sortAndValidate_eq hlen _⟩
  | true =>
    rw [if_pos rfl]
    simp only []
    by_cases hemp : ((mergeDetails found df_products).filter
        (fun r => priceLt r.sale_price sp.sale_price)).isEmpty
    · rw [if_pos hemp]
      exact ⟨[], rfl⟩
    · rw [if_neg hemp]
      exact ⟨_, sortAndValidate_eq hlen _⟩

/-- Rows surviving the enabled best-price pipeline are strictly cheaper than
the query product and reappear in the disabled pipeline's output. -/
theorem detailsPipeline_best_price {sort : List SortKey} {ascending : List Bool}
    (hlen : sort.length = ascending.length) {found : List ScoredRow}
    {df_products : List ProdRow} {sp : ProdRow} {rs rs' : List DetailRow}
    (hT : detailsPipeline found df_products sp true sort ascending = .ok rs)
    (hF : detailsPipeline found df_products sp false sort ascending = .ok rs') :
    ∀ d ∈ rs, priceLt d.sale_price sp.sale_price = true ∧ d ∈ rs' := by
  unfold detailsPipeline at hT hF
  rw [if_pos rfl] at hT
  rw [if_neg (by simp)] at hF
  simp only [] at hT
  rw [sortAndValidate_eq hlen] at hF
  simp only [Except.ok.injEq] at hF
  intro d hd
  have hmem : d ∈ (mergeDetails found df_products).filter
      (fun r => priceLt r.sale_price sp.sale_price) ∧
      validName d.product_name = true ∧ validPrice d.sale_price = true := by
    by_cases hemp : ((mergeDetails found df_products).filter
        (fun r => priceLt r.sale_price sp.sale_price)).isEmpty
    · rw [if_pos hemp] at hT
      simp only [Except.ok.injEq] at hT
      rw [← hT] at hd
      exact absurd hd (by simp)
    · rw [if_neg hemp, sortAndValidate_eq hlen] at hT
      simp only [Except.ok.injEq] at hT
      rw [← hT] at hd
      exact mem_sortAndValidate_out.mp hd
  have hflt := List.mem_filter.mp hmem.1
  refine ⟨by simpa using hflt.2, ?_⟩
  rw [← hF]
  exact mem_sortAndValidate_out.mpr ⟨hflt.1, hmem.2⟩

/-- C6: with the best-price filter enabled, every returned row's price is
strictly below the query product's catalog price; the enabled result is a
subset of the disabled result over the same inputs (monotonicity); and
enabling the filter never turns a successful call into a failure — an
all-filtered result surfaces as the explicit empty frame.  The sort
configuration is assumed well-formed (equal-length key and direction
lists), as the configuration contract requires. -/
theorem best_price_spec {cache : Cache} {df_embeddings : List EmbRow}
    {df_products : List ProdRow} {product_id : String} {num : Nat} {min_score : ℚ}
    {sort : List SortKey} {ascending : List Bool} {sp : ProdRow} {tl : List ProdRow}
    {c' : Cache} {rs : List DetailRow}
    (hlen : sort.length = ascending.length)
    (hsp : df_products.filter (fun p => p.product_id = product_id) = sp :: tl) :
    (get_similar_products_with_details cache df_embeddings df_products product_id
        num min_score true sort ascending = .ok (c', some rs) →
      (∀ d ∈ rs, ∃ p qp, d.sale_price = some p ∧ sp.sale_price = some qp ∧ p < qp) ∧
      ∃ rs', get_similar_products_with_details cache df_embeddings df_products
          product_id num min_score false sort ascending = .ok (c', some rs') ∧
        ∀ d ∈ rs, d ∈ rs') ∧
    (get_similar_products_with_details cache df_embeddings df_products product_id
        num min_score false sort ascending = .ok (c', some rs) →
      ∃ rs'', get_similar_products_with_details cache df_embeddings df_products
        product_id num min_score true sort ascending = .ok (c', some rs'')) := by
  have hred : ∀ (obp : Bool),
      get_similar_products_with_details cache df_embeddings df_products product_id
        num min_score obp sort ascending =
      (match get_similar_products cache df_embeddings product_id num min_score with
       | .error e => .error e
       | .ok (c1, none) => .ok (c1, some [])
       | .ok (c1, some found) =>
         if found.isEmpty then .ok (c1, some [])
         else match detailsPipeline found df_products sp obp sort ascending with
              | .error e => .error e
              | .ok rows => .ok (c1, some rows)) := by
    intro obp
    unfold get_similar_products_with_details
    rw [hsp]
  constructor
  · intro hT
    rw [hred true] at hT
    cases hs : get_similar_products cache df_embeddings product_id num min_score with
    | error e => rw [hs] at hT; exact absurd hT (by simp)
    | ok pr =>
      obtain ⟨c1, found?⟩ := pr
      rw [hs] at hT
      cases found? with
      | none =>
        simp only [Except.ok.injEq, Prod.mk.injEq, Option.some.injEq] at hT
        refine ⟨?_, [], ?_, ?_⟩
        · rw [← hT.2]; intro d hd; exact absurd hd (by simp)
        · rw [hred false, hs]
          simp [hT.1]
        · rw [← hT.2]; intro d hd; exact absurd hd (by simp)
      | some found =>
        dsimp only at hT
        by_cases he : found.isEmpty
        · rw [if_pos he] at hT
          simp only [Except.ok.injEq, Prod.mk.injEq, Option.some.injEq] at hT
          refine ⟨?_, [], ?_, ?_⟩
          · rw [← hT.2]; intro d hd; exact absurd hd (by simp)
          · rw [hred false, hs]
            dsimp only
            rw [if_pos he]
            simp [hT.1]
          · rw [← hT.2]; intro d hd; exact absurd hd (by simp)
        · rw [if_neg he] at hT
          cases hdT : detailsPipeline found df_products sp true sort ascending with
          | error e => rw [hdT] at hT; exact absurd hT (by simp)
          | ok rows =>
            rw [hdT] at hT
            simp only [Except.ok.injEq, Prod.mk.injEq, Option.some.injEq] at hT
            obtain ⟨hc1, hrows⟩ := hT
            subst hrows
            obtain ⟨rs', hdF⟩ := detailsPipeline_ok hlen found df_products sp false
            have hprops := detailsPipeline_best_price hlen hdT hdF
            refine ⟨fun d hd => ?_, rs', ?_, fun d hd => (hprops d hd).2⟩
            · obtain ⟨p, q, hp, hq, hlt⟩ := priceLt_spec (hprops d hd).1
              exact ⟨p, q, hp, hq, hlt⟩
            · rw [hred false, hs]
              dsimp only
              rw [if_neg he, hdF]
              simp [hc1]
  · intro hF
    rw [hred false] at hF
    cases hs : get_similar_products cache df_embeddings product_id num min_score with
    | error e => rw [hs] at hF; exact absurd hF (by simp)
    | ok pr =>
      obtain ⟨c1, found?⟩ := pr
      rw [hs] at hF
      cases found? with
      | none =>
        simp only [Except.ok.injEq, Prod.mk.injEq, Option.some.injEq] at hF
        refine ⟨[], ?_⟩
        rw [hred true, hs]
        simp [hF.1]
      | some found =>
        dsimp only at hF
        by_cases he : found.isEmpty
        · rw [if_pos he] at hF
          simp only [Except.ok.injEq, Prod.mk.injEq, Option.some.injEq] at hF
          refine ⟨[], ?_⟩
          rw [hred true, hs]
          dsimp only
          rw [if_pos he]
          simp [hF.1]
        · rw [if_neg he] at hF
          cases hdF : detailsPipeline found df_products sp false sort ascending with
          | error e => rw [hdF] at hF; exact absurd hF (by simp)
          | ok rows =>
            rw [hdF] at hF
            simp only [Except.ok.injEq, Prod.mk.injEq, Option.some.injEq] at hF
            obtain ⟨rs'', hdT⟩ := detailsPipeline_ok hlen found df_products sp true
            refine ⟨rs'', ?_⟩
            rw [hred true, hs]
            dsimp only
            rw [if_neg he, hdT]
            simp [hF.1]

/-- Witness for C6 on the scenario frames at query price 100: every
best-price row is strictly cheaper than 100, the best-price result embeds in
the unfiltered one, and the unfiltered success guarantees the filtered call
succeeds too. -/
theorem best_price_spec_witness :
    ((∀ d ∈ scnDetailsBest, ∃ p qp, d.sale_price = some p ∧
        pA0.sale_price = some qp ∧ p < qp) ∧
      ∃ rs', get_similar_products_with_details [] scnDf scnCat "a0" 3 (1/2) false
          [.score, .sale_price] [false, true] = .ok (scnCache, some rs') ∧
        ∀ d ∈ scnDetailsBest, d ∈ rs') ∧
    ∃ rs'', get_similar_products_with_details [] scnDf scnCat "a0" 3 (1/2) true
      [.score, .sale_price] [false, true] = .ok (scnCache, some rs'') :=
  ⟨(@best_price_spec [] scnDf scnCat "a0" 3 (1/2) [.score, .sale_price] [false, true]
      pA0 [] scnCache scnDetailsBest (by decide)
      (by with_unfolding_all decide)).1
    (show get_similar_products_with_details [] scnDf scnCat "a0" 3 (1/2) true
        [.score, .sale_price] [false, true] = .ok (scnCache, some scnDetailsBest)
      by with_unfolding_all rfl),
   (@best_price_spec [] scnDf scnCat "a0" 3 (1/2) [.score, .sale_price] [false, true]
      pA0 [] scnCache scnDetails (by decide)
      (by with_unfolding_all decide)).2
    (show get_similar_products_with_details [] scnDf scnCat "a0" 3 (1/2) false
        [.score, .sale_price] [false, true] = .ok (scnCache, some scnDetails)
      by with_unfolding_all rfl)⟩

/-! ### C7: deterministic ordering of detailed results -/

/-- Reversing the arguments of the multi-key comparison swaps its
verdict. -/
theorem lexCmp_swap : ∀ (pairs : List (SortKey × Bool)) (a b : DetailRow),
    lexCmp pairs b a = (lexCmp pairs a b).swap
  | [], a, b => rfl
  | (k, asc) :: rest, a, b => by
    unfold lexCmp
    cases ho : compare (encKey asc (keyVal k a)) (encKey asc (keyVal k b)) with
    | lt =>
      rw [compare_gt_iff_gt.mpr (compare_lt_iff_lt.mp ho)]
      rfl
    | gt =>
      rw [compare_lt_iff_lt.mpr (compare_gt_iff_gt.mp ho)]
      rfl
    | eq =>
      rw [compare_eq_iff_eq.mpr (compare_eq_iff_eq.mp ho).symm]
      exact lexCmp_swap rest a b

/-- The multi-key comparison is transitive in its non-strict reading. -/
theorem lexCmp_trans : ∀ (pairs : List (SortKey × Bool)) (a b c : DetailRow),
    lexCmp pairs a b ≠ .gt → lexCmp pairs b c ≠ .gt → lexCmp pairs a c ≠ .gt
  | [], a, b, c, _, _ => by simp [lexCmp]
  | (k, asc) :: rest, a, b, c, h1, h2 => by
    unfold lexCmp at h1 h2 ⊢
    cases ho1 : compare (encKey asc (keyVal k a)) (encKey asc (keyVal k b)) with
    | gt => rw [ho1] at h1; exact absurd rfl h1
    | lt =>
      cases ho2 : compare (encKey asc (keyVal k b)) (encKey asc (keyVal k c)) with
      | gt => rw [ho2] at h2; exact absurd rfl h2
      | lt =>
        have hlt := lt_trans (compare_lt_iff_lt.mp ho1) (compare_lt_iff_lt.mp ho2)
        rw [compare_lt_iff_lt.mpr hlt]
        simp
      | eq =>
        have heq := compare_eq_iff_eq.mp ho2
        rw [heq] at ho1
        rw [ho1]
        simp
    | eq =>
      rw [ho1] at h1
      have heq := compare_eq_iff_eq.mp ho1
      cases ho2 : compare (encKey asc (keyVal k b)) (encKey asc (keyVal k c)) with
      | gt => rw [ho2] at h2; exact absurd rfl h2
      | lt =>
        rw [heq, ho2]
        simp
      | eq =>
        rw [ho2] at h2
        rw [heq, ho2]
        exact lexCmp_trans rest a b c h1 h2

instance sortLe_total (pairs : List (SortKey × Bool)) :
    IsTotal DetailRow (sortLe pairs) := by
  refine ⟨fun a b => ?_⟩
  by_cases h : lexCmp pairs a b = .gt
  · right
    unfold sortLe
    rw [lexCmp_swap, h]
    decide
  · exact Or.inl h

instance sortLe_trans (pairs : List (SortKey × Bool)) :
    IsTrans DetailRow (sortLe pairs) :=
  ⟨fun a b c => lexCmp_trans pairs a b c⟩

/-- The ordering the spec states for the default configuration. -/
def defaultOrder (a b : DetailRow) : Prop :=
  b.score < a.score ∨ (a.score = b.score ∧
    ∀ pa pb, a.sale_price = some pa → b.sale_price = some pb → pa ≤ pb)

/-- Under the default key list, the comparator's non-strict verdict implies
the spec's ordering: score strictly descending, price non-decreasing among
equal scores. -/
theorem sortLe_default_imp {a b : DetailRow}
    (h : sortLe [(SortKey.score, false), (SortKey.sale_price, true)] a b) :
    defaultOrder a b := by
  unfold sortLe lexCmp at h
  cases ho1 : compare (encKey false (keyVal .score a)) (encKey false (keyVal .score b)) with
  | gt => rw [ho1] at h; exact absurd rfl h
  | lt =>
    left
    have hlt := compare_lt_iff_lt.mp ho1
    simp only [keyVal, encKey, Bool.false_eq_true, if_false] at hlt
    rw [Prod.Lex.lt_iff] at hlt
    rcases hlt with h1 | ⟨_, h2⟩
    · exact absurd h1 (by simp)
    · exact neg_lt_neg_iff.mp h2
  | eq =>
    right
    have heq := compare_eq_iff_eq.mp ho1
    simp only [keyVal, encKey, Bool.false_eq_true, if_false] at heq
    have hscore : a.score = b.score := by
      have h3 := congrArg (fun x => (ofLex x).2) heq
      simpa using h3
    refine ⟨hscore, fun pa pb hpa hpb => ?_⟩
    rw [ho1] at h
    unfold lexCmp at h
    cases ho2 : compare (encKey true (keyVal .sale_price a))
        (encKey true (keyVal .sale_price b)) with
    | gt => rw [ho2] at h; exact absurd rfl h
    | lt =>
      have hlt := compare_lt_iff_lt.mp ho2
      simp only [keyVal, encKey, hpa, hpb, if_true] at hlt
      rw [Prod.Lex.lt_iff] at hlt
      rcases hlt with h1 | ⟨_, h2⟩
      · exact absurd h1 (by simp)
      · exact le_of_lt (by simpa using h2)
    | eq =>
      have heq2 := compare_eq_iff_eq.mp ho2
      simp only [keyVal, encKey, hpa, hpb, if_true] at heq2
      have h4 : pa = pb := by
        have h5 := congrArg (fun x => (ofLex x).2) heq2
        simpa using h5
      exact le_of_eq h4

/-- A successful detailed result is either empty or a validity-filtered
sorted frame. -/
theorem details_result_cases {cache : Cache} {df_embeddings : List EmbRow}
    {df_products : List ProdRow} {product_id : String} {num : Nat} {min_score : ℚ}
    {only_best_price : Bool} {sort : List SortKey} {ascending : List Bool}
    {c' : Cache} {ds : List DetailRow}
    (h : get_similar_products_with_details cache df_embeddings df_products product_id
      num min_score only_best_price sort ascending = .ok (c', some ds)) :
    ds = [] ∨ ∃ rows, ds =
      ((List.insertionSort (sortLe (sort.zip ascending)) rows).filter
        (fun r => validName r.product_name)).filter
        (fun r => validPrice r.sale_price) := by
  have hsv : ∀ (rows : List DetailRow), sortAndValidate sort ascending rows = .ok ds →
      ∃ l, ds = ((List.insertionSort (sortLe (sort.zip ascending)) l).filter
        (fun r => validName r.product_name)).filter
        (fun r => validPrice r.sale_price) := by
    intro rows hrows
    unfold sortAndValidate at hrows
    split at hrows
    · simp only [Except.ok.injEq] at hrows
      exact ⟨rows, hrows.symm⟩
    · exact absurd hrows (by simp)
  unfold get_similar_products_with_details at h
  cases hf : df_products.filter (fun p => p.product_id = product_id) with
  | nil => rw [hf] at h; simp at h
  | cons sp tl =>
    rw [hf] at h
    cases hs : get_similar_products cache df_embeddings product_id num min_score with
    | error e => rw [hs] at h; exact absurd h (by simp)
    | ok pr =>
      obtain ⟨c0, found?⟩ := pr
      rw [hs] at h
      cases found? with
      | none =>
        dsimp only at h
        simp only [Except.ok.injEq, Prod.mk.injEq, Option.some.injEq] at h
        exact Or.inl h.2.symm
      | some found =>
        dsimp only at h
        by_cases he : found.isEmpty
        · rw [if_pos he] at h
          simp only [Except.ok.injEq, Prod.mk.injEq, Option.some.injEq] at h
          exact Or.inl h.2.symm
        · rw [if_neg he] at h
          cases hd : detailsPipeline found df_products sp only_best_price
              sort ascending with
          | error e => rw [hd] at h; exact absurd h (by simp)
          | ok rows =>
            rw [hd] at h
            simp only [Except.ok.injEq, Prod.mk.injEq, Option.some.injEq] at h
            obtain ⟨hc0, hrows⟩ := h
            subst hrows
            unfold detailsPipeline at hd
            split at hd
            · simp only [] at hd
              by_cases hemp : ((mergeDetails found df_products).filter
                  (fun r => priceLt r.sale_price sp.sale_price)).isEmpty
              · rw [if_pos hemp] at hd
                simp only [Except.ok.injEq] at hd
                exact Or.inl hd.symm
              · rw [if_neg hemp] at hd
                exact Or.inr (hsv _ hd)
            · exact Or.inr (hsv _ hd)

/-- C7: under the default sort configuration, the rows of a successful
detailed result are ordered by score descending and, among equal scores, by
price ascending; the validity filters applied after the sort preserve this
pairwise ordering. -/
theorem sort_order_spec {cache : Cache} {df_embeddings : List EmbRow}
    {df_products : List ProdRow} {product_id : String} {num : Nat} {min_score : ℚ}
    {only_best_price : Bool} {c' : Cache} {ds : List DetailRow}
    (h : get_similar_products_with_details cache df_embeddings df_products product_id
      num min_score only_best_price [.score, .sale_price] [false, true] =
      .ok (c', some ds)) :
    ds.Pairwise defaultOrder := by
  rcases details_result_cases h with hnil | ⟨rows, hform⟩
  · rw [hnil]
    exact List.Pairwise.nil
  · rw [hform]
    have hsorted := List.sorted_insertionSort
      (sortLe ([SortKey.score, SortKey.sale_price].zip [false, true])) rows
    have hp : (List.insertionSort
        (sortLe ([SortKey.score, SortKey.sale_price].zip [false, true]))
        rows).Pairwise defaultOrder :=
      List.Pairwise.imp (fun hab => sortLe_default_imp hab) hsorted
    exact (hp.filter _).filter _

/-! #### Tie-break witness frames for C7 -/

def tieDf : List EmbRow :=
  [{ product_id := "t0", cluster_id := 5, data_source := "S",
     normalized_embeddings := "[1 0]" },
   { product_id := "t1", cluster_id := 5, data_source := "S",
     normalized_embeddings := "[0.8 0]" },
   { product_id := "t2", cluster_id := 5, data_source := "S",
     normalized_embeddings := "[0.8 0]" }]

def tieCat : List ProdRow :=
  [{ product_id := "t0", product_name := some "T0", product_desc := none,
     sale_price := some 100, data_source := "S", url := none, image := none },
   { product_id := "t1", product_name := some "T1", product_desc := none,
     sale_price := some 50, data_source := "S", url := none, image := none },
   { product_id := "t2", product_name := some "T2", product_desc := none,
     sale_price := some 20, data_source := "S", url := none, image := none }]

def tieCache : Cache :=
  [{ source := "S", cluster_id := 5,
     index := { d := 2, vecs := [[1, 0], [4/5, 0], [4/5, 0]] } }]

/-- Both candidates score 4/5; the cheaper one is listed first. -/
def tieDetails : List DetailRow :=
  [{ product_id := "t2", product_name := some "T2", product_desc := none,
     sale_price := some 20, data_source := "S", cluster_id := 5, score := 4/5,
     url := none, image := none },
   { product_id := "t1", product_name := some "T1", product_desc := none,
     sale_price := some 50, data_source := "S", cluster_id := 5, score := 4/5,
     url := none, image := none }]

/-- Witness for C7: two equal-score rows come back ordered by ascending
price. -/
theorem sort_order_spec_witness : tieDetails.Pairwise defaultOrder :=
  sort_order_spec
    (show get_similar_products_with_details [] tieDf tieCat "t0" 10 (1/2) false
        [.score, .sale_price] [false, true] = .ok (tieCache, some tieDetails)
      by with_unfolding_all rfl)

/-! ### C9: behavior on an undecodable stored embedding -/

def badRow1 : EmbRow :=
  { product_id := "a", cluster_id := 1, data_source := "S",
    normalized_embeddings := "[0.5 0.5]" }

/-- A row whose serialized vector cannot be decoded into numeric tokens. -/
def badRow2 : EmbRow :=
  { product_id := "b", cluster_id := 1, data_source := "S",
    normalized_embeddings := "[oops]" }

def badDf : List EmbRow := [badRow1, badRow2]

/-- C9 documents intended error isolation the code does not perform: on a
partition containing an undecodable embedding, the lenient decode yields an
empty vector, the offending row is still part of the partition handed to
the index build (nothing excludes it and no warning channel exists), and
the resulting ragged matrix makes the whole search request abort with an
exception instead of proceeding. -/
theorem parse_error_aborts :
    parseVec badRow2.normalized_embeddings = [] ∧
    get_clusters_group_by_source badDf = [("S", [badRow1, badRow2])] ∧
    get_similar_products [] badDf "a" 10 (1/2) =
      .error "setting an array element with a sequence" := by
  refine ⟨by with_unfolding_all rfl, by with_unfolding_all rfl, ?_⟩
  with_unfolding_all rfl

end ProductSearch
